import Mathlib

/-!
Verification of the ENVI image reader (`src/image.ts`).

The development shallowly embeds the two core routines of the repository:

* `loadHeaderData` — the `.hdr` text parser (image.ts lines 129-199), and
* `getBilData` — the interleave-aware band extractor (image.ts lines 207-385).

Header text is modelled as `List Char` (JavaScript strings), the binary data
file as `List Nat` (its bytes), and the `Record<string, string | string[]>`
header object as an association list.  Fallible paths return `Except`.
`getBilData` additionally returns the ordered list of byte ranges it requested
from the data file via `File.slice`, so that "no read was issued" claims are
statable.
-/

/-! ## JavaScript string primitives on `List Char` -/

/-- The characters of a string literal. -/
def chars (s : String) : List Char := s.data

/-- The character `{` (written by code point to keep sources ASCII-clean). -/
def lbrace : Char := Char.ofNat 123

/-- The character `}`. -/
def rbrace : Char := Char.ofNat 125

/-- JS `String.prototype.trimStart` (ASCII whitespace suffices for ENVI headers). -/
def jsTrimLeft (l : List Char) : List Char := l.dropWhile Char.isWhitespace

/-- JS `String.prototype.trim` (ASCII whitespace suffices for ENVI headers). -/
def jsTrim (l : List Char) : List Char :=
  ((l.dropWhile Char.isWhitespace).reverse.dropWhile Char.isWhitespace).reverse

/-- JS `String.prototype.split` with a single-character separator; the result
is always nonempty, and splitting the empty string yields `[[]]`. -/
def splitOnChar (sep : Char) : List Char → List (List Char)
  | [] => [[]]
  | c :: rest =>
    match splitOnChar sep rest with
    | [] => [[]]
    | h :: t => if c = sep then [] :: h :: t else (c :: h) :: t

/-- Join pieces with a separator character; inverse of `splitOnChar` on its
image, used to model `slice(splitIndex + 1)` after splitting at every `=`. -/
def joinWith (sep : Char) : List (List Char) → List Char
  | [] => []
  | [x] => x
  | x :: y :: t => x ++ sep :: joinWith sep (y :: t)

/-- JS `String.prototype.replace(" ", "_")`: only the first space changes. -/
def replaceFirstSpace : List Char → List Char
  | [] => []
  | c :: rest => if c = ' ' then '_' :: rest else c :: replaceFirstSpace rest

/-- JS `String.prototype.toLowerCase` (ASCII). -/
def lowerChars (l : List Char) : List Char := l.map Char.toLower

/-- Value of a nonempty leading run of decimal digits, `none` when the text
starts with no digit. -/
def digitsVal (l : List Char) : Option Nat :=
  let ds := l.takeWhile Char.isDigit
  if ds.isEmpty then none
  else some (ds.foldl (fun acc c => 10 * acc + (c.toNat - '0'.toNat)) 0)

/-- JS `parseInt` with no explicit radix, restricted to decimal input: skip
leading whitespace, read an optional sign and then a longest run of decimal
digits; `none` models `NaN`.  (The automatic hexadecimal `0x` detection of
`parseInt` is not modelled; no ENVI header field in scope is hexadecimal.) -/
def parseIntJS (l : List Char) : Option Int :=
  match jsTrimLeft l with
  | '-' :: t => (digitsVal t).map (fun n => -(n : Int))
  | '+' :: t => (digitsVal t).map (fun n => (n : Int))
  | t => (digitsVal t).map (fun n => (n : Int))

/-! ## The header store (`Record<string, string | string[]>`) -/

/-- A header value: a scalar string or a bracketed list. -/
inductive HdrValue where
  | str (s : List Char)
  | list (l : List (List Char))
deriving DecidableEq, Repr

/-- The parsed header object, as an association list in insertion order. -/
abbrev Store := List (List Char × HdrValue)

/-- Property read `data[key]`. -/
def storeGet : Store → List Char → Option HdrValue
  | [], _ => none
  | (k, v) :: rest, key => if k = key then some v else storeGet rest key

/-- Property write `data[key] = value` (overwrite in place, else append). -/
def storeSet : Store → List Char → HdrValue → Store
  | [], key, value => [(key, value)]
  | (k, v) :: rest, key, value =>
    if k = key then (key, value) :: rest else (k, v) :: storeSet rest key value

/-- JS `.length` of a header value: character count of a scalar string,
element count of a list (the union type in image.ts line 183 makes both
possible). -/
def valueLength : HdrValue → Nat
  | .str s => s.length
  | .list l => l.length

/-- JS `parseInt` applied to a header value; an array coerces to its
comma-joined string first. -/
def parseIntValue : HdrValue → Option Int
  | .str s => parseIntJS s
  | .list l => parseIntJS (joinWith ',' l)

/-! ## Header keys used by the reader -/

def linesKey : List Char := chars "lines"

def samplesKey : List Char := chars "samples"

def bandsKey : List Char := chars "bands"

def interleaveKey : List Char := chars "interleave"

def dataTypeKey : List Char := chars "data_type"

def bandNamesKey : List Char := chars "band_names"

def wavelengthKey : List Char := chars "wavelength"

/-! ## Header parsing (`loadHeaderData`, image.ts lines 129-199) -/

/-- Errors of the header parser (`EnviHeaderError` messages). -/
inductive HdrErr where
  | emptyFile
  | badMagic
  | unterminatedList
  | bandNamesMismatch
  | wavelengthMismatch
deriving DecidableEq, Repr

/-- Key normalisation of image.ts lines 153-157: trim, replace the first
space with an underscore, lower-case. -/
def normalizeKey (k : List Char) : List Char := lowerChars (replaceFirstSpace (jsTrim k))

/-- Split a header line at its first `=`: `none` models `indexOf("=") === -1`
(the line is skipped); otherwise the pieces left and right of that first `=`. -/
def splitFirstEq (line : List Char) : Option (List Char × List Char) :=
  match splitOnChar '=' line with
  | [] => none
  | [_] => none
  | k :: rest => some (k, joinWith '=' rest)

/-- `value.slice(1, -1).split(",").map(v => v.trim())` of image.ts lines
170-173. -/
def splitListValue (value : List Char) : List (List Char) :=
  (splitOnChar ',' ((value.drop 1).dropLast)).map jsTrim

/-- State of the line loop: either between entries, or inside the `while` of
image.ts lines 161-169 that concatenates the continuation lines of a
bracketed list value for `key`, with `acc` the value accumulated so far. -/
inductive PMode where
  | normal
  | collecting (key : List Char) (acc : List Char)

/-- The header line loop of image.ts lines 146-179.  The `for`/inner-`while`
pair is rendered as structural recursion over the remaining raw lines with the
`while` as the `collecting` state: on each continuation line the trimmed text
is appended and the `endsWith("}")` test re-checked; input exhausted while
collecting is the unterminated-list error of lines 163-167. -/
def parseHeaderLines : List (List Char) → PMode → Store → Except HdrErr Store
  | [], .normal, data => .ok data
  | [], .collecting _ _, _ => .error .unterminatedList
  | rawLine :: rest, .collecting key acc, data =>
    let acc' := acc ++ jsTrim rawLine
    if acc'.getLast? = some rbrace then
      parseHeaderLines rest .normal (storeSet data key (.list (splitListValue acc')))
    else
      parseHeaderLines rest (.collecting key acc') data
  | rawLine :: rest, .normal, data =>
    let line := jsTrim rawLine
    match splitFirstEq line with
    | none => parseHeaderLines rest .normal data
    | some (k, v) =>
      let key := normalizeKey k
      let value := jsTrim v
      if value.head? = some lbrace then
        if value.getLast? = some rbrace then
          parseHeaderLines rest .normal (storeSet data key (.list (splitListValue value)))
        else
          parseHeaderLines rest (.collecting key value) data
      else
        parseHeaderLines rest .normal (storeSet data key (.str value))

/-- `data[k].length !== bands` guarded by `k in data` (image.ts lines 183,
188); with `bands` `NaN` (`none`) the strict inequality always holds. -/
def lengthMismatch (v : Option HdrValue) (bands : Option Int) : Bool :=
  match v with
  | none => false
  | some v => decide (some ((valueLength v : Int)) ≠ bands)

/-- The band-count cross-checks of image.ts lines 181-193. -/
def bandsCheck (data : Store) : Except HdrErr Store :=
  match storeGet data bandsKey with
  | none => .ok data
  | some bv =>
    let bands := parseIntValue bv
    if lengthMismatch (storeGet data bandNamesKey) bands then .error .bandNamesMismatch
    else if lengthMismatch (storeGet data wavelengthKey) bands then .error .wavelengthMismatch
    else .ok data

/-- `loadHeaderData` (image.ts lines 129-199): split on newlines, require the
untrimmed first line to be exactly `ENVI`, run the line loop, then the
band-count cross-checks. -/
def loadHeaderData (text : List Char) : Except HdrErr Store :=
  match splitOnChar '\n' text with
  | [] => .error .emptyFile
  | line0 :: rest =>
    if line0 ≠ chars "ENVI" then .error .badMagic
    else
      match parseHeaderLines rest .normal [] with
      | .error e => .error e
      | .ok data => bandsCheck data

/-! ## The decoder (`getBilData`, image.ts lines 207-385) -/

/-- Errors of the decoder (`EnviBilError` messages, in source order). -/
inductive BilErr where
  | missingDims
  | channelOutOfBounds
  | unsupportedInterleave
  | unsupportedDataType
  | sizeNotAligned
  | sizeMismatch
deriving DecidableEq, Repr

/-- An entry of the ENVI data-type table. -/
structure BilDataType where
  name : List Char
  byteSize : Nat
deriving DecidableEq, Repr

/-- The `BilDataTypes` table of image.ts lines 43-55; `none` models an absent
key (including the `NaN` index). -/
def BilDataTypes (code : Int) : Option BilDataType :=
  match code with
  | 1 => some ⟨chars "Uint8", 1⟩
  | 2 => some ⟨chars "Int16", 2⟩
  | 3 => some ⟨chars "Int32", 4⟩
  | 4 => some ⟨chars "Float", 4⟩
  | 5 => some ⟨chars "Double", 8⟩
  | 6 => some ⟨chars "ComplexFloat", 8⟩
  | 9 => some ⟨chars "ComplexDouble", 16⟩
  | 12 => some ⟨chars "Uint16", 2⟩
  | 13 => some ⟨chars "Uint32", 4⟩
  | 14 => some ⟨chars "Int64", 8⟩
  | 15 => some ⟨chars "Uint64", 8⟩
  | _ => none

/-- The three supported interleave tokens. -/
inductive Interleave where
  | bil
  | bip
  | bsq
deriving DecidableEq, Repr

/-- The `switch (interleave)` dispatch of image.ts lines 238-253: the header
value must be a scalar equal to one of the literal tokens, else the default
branch throws. -/
def interleaveOf : Option HdrValue → Option Interleave
  | some (.str s) =>
    if s = chars "bil" then some .bil
    else if s = chars "bip" then some .bip
    else if s = chars "bsq" then some .bsq
    else none
  | _ => none

/-- `parseInt(this.headerData[k] as string)`: an absent key gives `NaN`. -/
def parseIntOfStore (hdr : Store) (k : List Char) : Option Int :=
  match storeGet hdr k with
  | none => none
  | some v => parseIntValue v

/-- `File.slice(startByte, endByte)` followed by reading the blob: the byte
range, clamped to the file. -/
def blobSlice (file : List Nat) (startByte endByte : Nat) : List Nat :=
  (file.drop startByte).take (endByte - startByte)

/-- `new Uint8Array(buffer, offset, len)`: a window into a read buffer.  (In
the validated regime every window is in range, where this agrees with JS.) -/
def viewBytes (buffer : List Nat) (offset len : Nat) : List Nat :=
  (buffer.drop offset).take len

/-- `outputBuffer.set(view, outputStartByte)` on a byte list.  (In the
validated regime every write is in range, where this agrees with JS.) -/
def writeBytes (buf : List Nat) (offset : Nat) (src : List Nat) : List Nat :=
  buf.take offset ++ src ++ buf.drop (offset + src.length)

/-- The copy phase of `getBilData` (image.ts lines 223-236 and 271-384):
output shape/stride setup, output allocation, and the three
interleave-specific copy loops.  Dimensions enter as the `toNat` of the
validated header integers — exactly the iteration counts of the JS `for`
loops, where a negative bound runs zero times.  The first component of the
state accumulates, in order, every byte range requested from the data file. -/
def copyLoop (il : Interleave) (lines samples bands : Nat) (chans : List Nat)
    (byteSize : Nat) (file : List Nat) :
    List (Nat × Nat) × Except BilErr (List Nat) :=
  let selectedBandsCount := chans.length
  let outputStride : Nat × Nat × Nat := (samples * selectedBandsCount, 1, samples)
  let outputBuffer : List Nat :=
    List.replicate (lines * samples * selectedBandsCount * byteSize) 0
  match il with
  | .bil =>
    let fileStrides : Nat × Nat × Nat := (samples * bands, 1, samples)
    let nBytes := samples * byteSize
    let r := (List.range lines).foldl (fun st i =>
      (List.range selectedBandsCount).foldl (fun st c =>
        let channel := chans.getD c 0
        let startByte := (i * fileStrides.1 + channel * fileStrides.2.2) * byteSize
        let endByte := startByte + nBytes
        let buffer := blobSlice file startByte endByte
        let st1 := (st.1 ++ [(startByte, endByte)], st.2)
        (List.range samples).foldl (fun st j =>
          let outputStartByte :=
            (i * outputStride.1 + j * outputStride.2.1 + c * outputStride.2.2) * byteSize
          let sourceStart := j * fileStrides.2.1 * byteSize
          (st.1, writeBytes st.2 outputStartByte (viewBytes buffer sourceStart byteSize)))
          st1) st)
      (([] : List (Nat × Nat)), outputBuffer)
    (r.1, .ok r.2)
  | .bip =>
    let fileStrides : Nat × Nat × Nat := (samples * bands, bands, 1)
    let nBytes := byteSize
    let r := (List.range lines).foldl (fun st i =>
      (List.range selectedBandsCount).foldl (fun st c =>
        let channel := chans.getD c 0
        (List.range samples).foldl (fun st j =>
          let startByte :=
            (i * fileStrides.1 + j * fileStrides.2.1 + channel * fileStrides.2.2) * byteSize
          let endByte := startByte + nBytes
          let buffer := blobSlice file startByte endByte
          let outputStartByte :=
            (i * outputStride.1 + j * outputStride.2.1 + c * outputStride.2.2) * byteSize
          (st.1 ++ [(startByte, endByte)],
            writeBytes st.2 outputStartByte (viewBytes buffer 0 byteSize))) st) st)
      (([] : List (Nat × Nat)), outputBuffer)
    (r.1, .ok r.2)
  | .bsq =>
    let fileStrides : Nat × Nat × Nat := (samples, 1, lines * samples)
    let nBytes := lines * samples * byteSize
    let r := (List.range selectedBandsCount).foldl (fun st c =>
      let channel := chans.getD c 0
      let startByte := channel * fileStrides.2.2 * byteSize
      let endByte := startByte + nBytes
      let buffer := blobSlice file startByte endByte
      let st1 := (st.1 ++ [(startByte, endByte)], st.2)
      (List.range lines).foldl (fun st i =>
        (List.range samples).foldl (fun st j =>
          let sourceStart := (i * fileStrides.1 + j * fileStrides.2.1) * byteSize
          let outputStartByte :=
            (i * outputStride.1 + j * outputStride.2.1 + c * outputStride.2.2) * byteSize
          (st.1, writeBytes st.2 outputStartByte (viewBytes buffer sourceStart byteSize)))
          st) st1)
      (([] : List (Nat × Nat)), outputBuffer)
    (r.1, .ok r.2)

/-- `EnviImage.getBilData` (image.ts lines 207-385).  The parsed header store,
the data file's bytes, and the requested channel list map to the ordered list
of byte ranges read from the data file together with either an `EnviBilError`
or the output buffer.  Validation follows source order: dimension parsing,
channel bounds, interleave dispatch, data-type lookup, byte alignment of the
file size, exact size match, then the copy phase.  After the bounds check
every channel is a nonnegative integer, so the copy phase receives the
channels' `toNat` unchanged in value. -/
def getBilData (hdr : Store) (file : List Nat) (channels : List Int) :
    List (Nat × Nat) × Except BilErr (List Nat) :=
  match parseIntOfStore hdr linesKey, parseIntOfStore hdr samplesKey,
      parseIntOfStore hdr bandsKey with
  | some lines, some samples, some bands =>
    if channels.any (fun c => decide (c < 0) || decide (bands ≤ c)) then
      ([], .error .channelOutOfBounds)
    else
      match interleaveOf (storeGet hdr interleaveKey) with
      | none => ([], .error .unsupportedInterleave)
      | some il =>
        match (parseIntOfStore hdr dataTypeKey).bind BilDataTypes with
        | none => ([], .error .unsupportedDataType)
        | some dataType =>
          if file.length % dataType.byteSize ≠ 0 then ([], .error .sizeNotAligned)
          else if ((file.length / dataType.byteSize : Nat) : Int)
              ≠ lines * samples * bands then
            ([], .error .sizeMismatch)
          else
            copyLoop il lines.toNat samples.toNat bands.toNat
              (channels.map Int.toNat) dataType.byteSize file
  | _, _, _ => ([], .error .missingDims)

/-! ## Derived definitions used to state the decoder's contract -/

deriving instance DecidableEq for Except

/-- Apply a sequence of `(offset, bytes)` writes to a buffer, in order. -/
def applyWrites : List Nat → List (Nat × List Nat) → List Nat
  | buf, [] => buf
  | buf, w :: ws => applyWrites (writeBytes buf w.1 w.2) ws

/-- Element index in the data file of the logical element (line `i`, sample
`j`, band `ch`), for each interleave — the element offsets the copy loops
read from. -/
def srcElem (il : Interleave) (lines samples bands : Nat) (i j ch : Nat) : Nat :=
  match il with
  | .bil => i * (samples * bands) + ch * samples + j
  | .bip => i * (samples * bands) + j * bands + ch
  | .bsq => ch * (lines * samples) + i * samples + j

/-- The output layout contract of `getBilData`: a buffer of
`lines * samples * selCount * byteSize` bytes whose position `p` holds
`g i j c b`, where `i`, `j`, `c`, `b` are line, sample, selection slot and
byte-within-element of `p` under output strides `[samples * selCount, 1,
samples]` (in elements). -/
def expectedOut (lines samples selCount byteSize : Nat)
    (g : Nat → Nat → Nat → Nat → Nat) : List Nat :=
  (List.range (lines * samples * selCount * byteSize)).map (fun p =>
    let e := p / byteSize
    let r := e % (samples * selCount)
    g (e / (samples * selCount)) (r % samples) (r / samples) (p % byteSize))

/-- A header store with the five fields `getBilData` reads, as scalar
strings. -/
def mkHdr (sLines sSamples sBands sDataType ilTok : List Char) : Store :=
  [(linesKey, .str sLines), (samplesKey, .str sSamples), (bandsKey, .str sBands),
   (dataTypeKey, .str sDataType), (interleaveKey, .str ilTok)]

/-- A synthetic data file for dimensions `(lines, samples, bands)` and element
width `byteSize`, physically laid out per `il`, whose logical content is
`elem line sample band byte`. -/
def mkFile (il : Interleave) (lines samples bands byteSize : Nat)
    (elem : Nat → Nat → Nat → Nat → Nat) : List Nat :=
  (List.range (lines * samples * bands * byteSize)).map (fun t =>
    let e := t / byteSize
    let b := t % byteSize
    match il with
    | .bil =>
      let r := e % (samples * bands)
      elem (e / (samples * bands)) (r % samples) (r / samples) b
    | .bip =>
      let r := e % (samples * bands)
      elem (e / (samples * bands)) (r / bands) (r % bands) b
    | .bsq =>
      let r := e % (lines * samples)
      elem (r / samples) (r % samples) (e / (lines * samples)) b)

/-! ## General fold and buffer lemmas -/

theorem foldl_fixed {α β : Type _} (l : List α) (s : β) :
    l.foldl (fun s _ => s) s = s := by
  induction l generalizing s with
  | nil => rfl
  | cons a t ih => simp [ih s]

theorem foldl_snd_eq {α β γ : Type _} (f : β × γ → α → β × γ) (g : γ → α → γ)
    (h : ∀ s a, (f s a).2 = g s.2 a) (l : List α) (s : β × γ) :
    (l.foldl f s).2 = l.foldl g s.2 := by
  induction l generalizing s with
  | nil => rfl
  | cons a t ih => rw [List.foldl_cons, List.foldl_cons, ih (f s a), h]

theorem foldl_keep_fst {α β γ : Type _} (f : γ → α → γ) (l : List α) (p : β × γ) :
    l.foldl (fun st a => (st.1, f st.2 a)) p = (p.1, l.foldl f p.2) := by
  induction l generalizing p with
  | nil => rfl
  | cons a t ih => simpa using ih (p.1, f p.2 a)

theorem foldl_pair_split {α β γ : Type _} (tr : α → List β) (g : γ → α → γ)
    (l : List α) (p : List β × γ) :
    l.foldl (fun st a => (st.1 ++ tr a, g st.2 a)) p
      = (p.1 ++ l.flatMap tr, l.foldl g p.2) := by
  induction l generalizing p with
  | nil => simp
  | cons a t ih =>
    rw [List.foldl_cons, ih (p.1 ++ tr a, g p.2 a)]
    simp [List.flatMap_cons]

theorem foldl2_flatten {β δ γ : Type _} (lb : List β) (lc : List δ)
    (g : γ → β → δ → γ) (init : γ) :
    lb.foldl (fun acc b => lc.foldl (fun acc c => g acc b c) acc) init
      = (lb.flatMap (fun b => lc.map (fun c => (b, c)))).foldl
          (fun acc p => g acc p.1 p.2) init := by
  induction lb generalizing init with
  | nil => rfl
  | cons b tb ih =>
    rw [List.foldl_cons, List.flatMap_cons, List.foldl_append, ← ih, List.foldl_map]

theorem applyWrites_eq_foldl (buf : List Nat) (ws : List (Nat × List Nat)) :
    applyWrites buf ws = ws.foldl (fun b w => writeBytes b w.1 w.2) buf := by
  induction ws generalizing buf with
  | nil => rfl
  | cons w t ih => rw [applyWrites, List.foldl_cons, ih]

theorem writeBytes_length {buf src : List Nat} {off : Nat}
    (h : off + src.length ≤ buf.length) :
    (writeBytes buf off src).length = buf.length := by
  simp only [writeBytes, List.length_append, List.length_take, List.length_drop]
  omega

theorem writeBytes_getElem?_of_lt {buf src : List Nat} {off q : Nat}
    (hq : q < off) (hoff : off ≤ buf.length) :
    (writeBytes buf off src)[q]? = buf[q]? := by
  have h1 : min off buf.length = off := by omega
  rw [writeBytes, List.getElem?_append, List.length_append, List.length_take, h1,
    if_pos (by omega), List.getElem?_append, List.length_take, h1, if_pos hq,
    List.getElem?_take, if_pos hq]

theorem writeBytes_getElem?_of_mem {buf src : List Nat} {off q : Nat}
    (hc1 : off ≤ q) (hc2 : q < off + src.length) (hoff : off ≤ buf.length) :
    (writeBytes buf off src)[q]? = src[q - off]? := by
  have h1 : min off buf.length = off := by omega
  rw [writeBytes, List.getElem?_append, List.length_append, List.length_take, h1,
    if_pos (by omega), List.getElem?_append, List.length_take, h1, if_neg (by omega)]

theorem writeBytes_getElem?_of_ge {buf src : List Nat} {off q : Nat}
    (h : off + src.length ≤ q) (hoff : off ≤ buf.length) :
    (writeBytes buf off src)[q]? = buf[q]? := by
  have h1 : min off buf.length = off := by omega
  rw [writeBytes, List.getElem?_append, List.length_append, List.length_take, h1,
    if_neg (by omega), List.getElem?_drop]
  congr 1
  omega

theorem applyWrites_length {ws : List (Nat × List Nat)} {buf : List Nat}
    (hfit : ∀ w ∈ ws, w.1 + w.2.length ≤ buf.length) :
    (applyWrites buf ws).length = buf.length := by
  induction ws generalizing buf with
  | nil => rfl
  | cons w t ih =>
    have h1 : w.1 + w.2.length ≤ buf.length := hfit w (by simp)
    rw [applyWrites, ih (fun w' hw' => by
      rw [writeBytes_length h1]; exact hfit w' (List.mem_cons_of_mem _ hw')),
      writeBytes_length h1]

theorem applyWrites_getElem?_untouched {ws : List (Nat × List Nat)}
    {buf : List Nat} {q : Nat}
    (hfit : ∀ w ∈ ws, w.1 + w.2.length ≤ buf.length)
    (hq : ∀ w ∈ ws, q < w.1 ∨ w.1 + w.2.length ≤ q) :
    (applyWrites buf ws)[q]? = buf[q]? := by
  induction ws generalizing buf with
  | nil => rfl
  | cons w t ih =>
    have hw : w.1 + w.2.length ≤ buf.length := hfit w (by simp)
    have hstep : (writeBytes buf w.1 w.2)[q]? = buf[q]? := by
      rcases hq w (by simp) with h | h
      · exact writeBytes_getElem?_of_lt h (by omega)
      · exact writeBytes_getElem?_of_ge h (by omega)
    rw [applyWrites, ih (fun w' hw' => by
        rw [writeBytes_length hw]; exact hfit w' (List.mem_cons_of_mem _ hw'))
      (fun w' hw' => hq w' (List.mem_cons_of_mem _ hw')), hstep]

theorem applyWrites_getElem?_write {ws : List (Nat × List Nat)}
    {buf : List Nat} {q : Nat} {w₀ : Nat × List Nat}
    (hfit : ∀ w ∈ ws, w.1 + w.2.length ≤ buf.length)
    (hmem : w₀ ∈ ws) (hcov1 : w₀.1 ≤ q) (hcov2 : q < w₀.1 + w₀.2.length)
    (huniq : ∀ w ∈ ws, w.1 ≤ q → q < w.1 + w.2.length → w = w₀) :
    (applyWrites buf ws)[q]? = w₀.2[q - w₀.1]? := by
  induction ws generalizing buf with
  | nil => cases hmem
  | cons w t ih =>
    have hw : w.1 + w.2.length ≤ buf.length := hfit w (by simp)
    have hfit' : ∀ w' ∈ t, w'.1 + w'.2.length ≤ (writeBytes buf w.1 w.2).length := by
      intro w' hw'
      rw [writeBytes_length hw]; exact hfit w' (List.mem_cons_of_mem _ hw')
    by_cases hrest : ∃ w' ∈ t, w'.1 ≤ q ∧ q < w'.1 + w'.2.length
    · obtain ⟨w', hw't, hw'c1, hw'c2⟩ := hrest
      have hww : w' = w₀ := huniq w' (List.mem_cons_of_mem _ hw't) hw'c1 hw'c2
      subst hww
      rw [applyWrites]
      exact ih hfit' hw't (fun w'' hw'' => huniq w'' (List.mem_cons_of_mem _ hw''))
    · push_neg at hrest
      have hw0 : w = w₀ := by
        rcases List.mem_cons.mp hmem with h | h
        · exact h.symm
        · exfalso
          have := hrest w₀ h hcov1
          omega
      subst hw0
      rw [applyWrites, applyWrites_getElem?_untouched hfit'
        (fun w' hw' => by
          by_cases hle : w'.1 ≤ q
          · exact Or.inr (hrest w' hw' hle)
          · exact Or.inl (lt_of_not_le hle))]
      exact writeBytes_getElem?_of_mem hcov1 hcov2 (by omega)

/-! ## Mixed-radix index arithmetic -/

theorem radix_lt {a r A M : Nat} (ha : a < A) (hr : r < M) : a * M + r < A * M := by
  have h1 : a * M + r < (a + 1) * M := by
    rw [Nat.succ_mul]; omega
  exact lt_of_lt_of_le h1 (Nat.mul_le_mul_right M ha)

theorem radix_div {a r M : Nat} (hr : r < M) : (a * M + r) / M = a := by
  rw [Nat.mul_comm a M, Nat.mul_add_div (by omega), Nat.div_eq_of_lt hr, Nat.add_zero]

theorem radix_mod {a r M : Nat} (hr : r < M) : (a * M + r) % M = r := by
  rw [Nat.mul_comm a M, Nat.mul_add_mod, Nat.mod_eq_of_lt hr]

/-! ## Index decomposition for the output layout -/

theorem pos_of_lt_prod4 {L S K W p : Nat} (hp : p < L * S * K * W) :
    0 < L ∧ 0 < S ∧ 0 < K ∧ 0 < W := by
  rcases Nat.eq_zero_or_pos L with h | hL
  · subst h; simp at hp
  rcases Nat.eq_zero_or_pos S with h | hS
  · subst h; simp at hp
  rcases Nat.eq_zero_or_pos K with h | hK
  · subst h; simp at hp
  rcases Nat.eq_zero_or_pos W with h | hW
  · subst h; simp at hp
  exact ⟨hL, hS, hK, hW⟩

theorem expectedOut_length (L S K W : Nat) (g : Nat → Nat → Nat → Nat → Nat) :
    (expectedOut L S K W g).length = L * S * K * W := by
  simp [expectedOut]

theorem expectedOut_getElem? (L S K W : Nat) (g : Nat → Nat → Nat → Nat → Nat)
    {i j c b : Nat} (hi : i < L) (hj : j < S) (hc : c < K) (hb : b < W) :
    (expectedOut L S K W g)[(i * (S * K) + c * S + j) * W + b]? = some (g i j c b) := by
  have hr : c * S + j < S * K := by
    rw [Nat.mul_comm S K]; exact radix_lt hc hj
  have he : i * (S * K) + (c * S + j) < L * (S * K) := radix_lt hi hr
  have hp : (i * (S * K) + c * S + j) * W + b < L * S * K * W := by
    rw [Nat.add_assoc, Nat.mul_assoc L S K]
    exact radix_lt he hb
  have h1 : ((i * (S * K) + c * S + j) * W + b) / W = i * (S * K) + (c * S + j) := by
    rw [Nat.add_assoc]; exact radix_div hb
  have h2 : ((i * (S * K) + c * S + j) * W + b) % W = b := by
    rw [Nat.add_assoc]; exact radix_mod hb
  have h3 : (i * (S * K) + (c * S + j)) / (S * K) = i := radix_div hr
  have h4 : (i * (S * K) + (c * S + j)) % (S * K) = c * S + j := radix_mod hr
  rw [expectedOut, List.getElem?_map, List.getElem?_range hp]
  simp only [Option.map_some']
  rw [h1, h2, h3, h4, radix_div hj, radix_mod hj]

theorem decompOut {L S K W p : Nat} (hp : p < L * S * K * W) :
    ∃ i j c b, i < L ∧ j < S ∧ c < K ∧ b < W ∧
      p = (i * (S * K) + c * S + j) * W + b := by
  obtain ⟨hL, hS, hK, hW⟩ := pos_of_lt_prod4 hp
  have hSK : 0 < S * K := Nat.mul_pos hS hK
  have hpe : p / W < L * (S * K) := by
    rw [← Nat.mul_assoc]
    exact (Nat.div_lt_iff_lt_mul hW).mpr hp
  refine ⟨p / W / (S * K), p / W % (S * K) % S, p / W % (S * K) / S, p % W,
    ?_, ?_, ?_, ?_, ?_⟩
  · exact (Nat.div_lt_iff_lt_mul hSK).mpr hpe
  · exact Nat.mod_lt _ hS
  · have hr : p / W % (S * K) < S * K := Nat.mod_lt _ hSK
    refine (Nat.div_lt_iff_lt_mul hS).mpr ?_
    rw [Nat.mul_comm K S]
    exact hr
  · exact Nat.mod_lt _ hW
  · have e1 : p / W / (S * K) * (S * K) + p / W % (S * K) / S * S + p / W % (S * K) % S
        = p / W := by
      rw [Nat.add_assoc]
      have e2 : p / W % (S * K) / S * S + p / W % (S * K) % S = p / W % (S * K) := by
        rw [Nat.mul_comm]; exact Nat.div_add_mod _ S
      rw [e2, Nat.mul_comm]
      exact Nat.div_add_mod _ (S * K)
    calc p = W * (p / W) + p % W := (Nat.div_add_mod p W).symm
      _ = (p / W) * W + p % W := by rw [Nat.mul_comm]
      _ = (p / W / (S * K) * (S * K) + p / W % (S * K) / S * S + p / W % (S * K) % S) * W
            + p % W := by rw [e1]

theorem radix2_inj {a r a' r' M : Nat} (hr : r < M) (hr' : r' < M)
    (h : a * M + r = a' * M + r') : a = a' ∧ r = r' := by
  have h1 : (a * M + r) / M = a := radix_div hr
  have h2 : (a * M + r) % M = r := radix_mod hr
  rw [h, radix_div hr'] at h1
  rw [h, radix_mod hr'] at h2
  exact ⟨h1.symm, h2.symm⟩

theorem tripleIndex_inj {S K i c j i' c' j' : Nat}
    (hc : c < K) (hj : j < S) (hc' : c' < K) (hj' : j' < S)
    (h : i * (S * K) + c * S + j = i' * (S * K) + c' * S + j') :
    i = i' ∧ c = c' ∧ j = j' := by
  have hr : c * S + j < S * K := by rw [Nat.mul_comm S K]; exact radix_lt hc hj
  have hr' : c' * S + j' < S * K := by rw [Nat.mul_comm S K]; exact radix_lt hc' hj'
  rw [Nat.add_assoc, Nat.add_assoc] at h
  obtain ⟨h1, h2⟩ := radix2_inj hr hr' h
  obtain ⟨h3, h4⟩ := radix2_inj hj hj' h2
  exact ⟨h1, h3, h4⟩

theorem srcElem_lt {il : Interleave} {L S B i j ch : Nat}
    (hi : i < L) (hj : j < S) (hch : ch < B) :
    srcElem il L S B i j ch < L * S * B := by
  cases il with
  | bil =>
    show i * (S * B) + ch * S + j < L * S * B
    have h1 : ch * S + j < S * B := by
      rw [Nat.mul_comm S B]; exact radix_lt hch hj
    rw [Nat.add_assoc, Nat.mul_assoc]
    exact radix_lt hi h1
  | bip =>
    show i * (S * B) + j * B + ch < L * S * B
    have h1 : j * B + ch < S * B := radix_lt hj hch
    rw [Nat.add_assoc, Nat.mul_assoc]
    exact radix_lt hi h1
  | bsq =>
    show ch * (L * S) + i * S + j < L * S * B
    have h1 : i * S + j < L * S := radix_lt hi hj
    have h2 := radix_lt hch h1
    rw [Nat.add_assoc]
    rwa [Nat.mul_comm B (L * S)] at h2

theorem offset_inj {e e' b W : Nat} (hb : b < W)
    (h1 : e' * W ≤ e * W + b) (h2 : e * W + b < e' * W + W) : e' = e := by
  have hd : (e * W + b) / W = e := radix_div hb
  have hd' : (e * W + b) / W = e' :=
    Nat.div_eq_of_lt_le h1 (by rw [Nat.succ_mul]; exact h2)
  rw [hd] at hd'
  exact hd'.symm

/-! ## Views into byte-range reads -/

theorem getElem?_take_drop (file : List Nat) (a W b : Nat) (hb : b < W) :
    ((file.drop a).take W)[b]? = file[a + b]? := by
  rw [List.getElem?_take, if_pos hb, List.getElem?_drop]

theorem viewBytes_blobSlice {file : List Nat} {sb nB s W : Nat} (hsW : s + W ≤ nB) :
    viewBytes (blobSlice file sb (sb + nB)) s W = (file.drop (sb + s)).take W := by
  rw [viewBytes, blobSlice, Nat.add_sub_cancel_left, List.drop_take, List.drop_drop,
    List.take_take, min_eq_left (by omega)]

theorem viewBytes_blobSlice_length {file : List Nat} {sb nB s W : Nat}
    (hsW : s + W ≤ nB) (hfile : sb + nB ≤ file.length) :
    (viewBytes (blobSlice file sb (sb + nB)) s W).length = W := by
  rw [viewBytes_blobSlice hsW, List.length_take, List.length_drop]
  omega

theorem viewBytes_blobSlice_getD {file : List Nat} {sb nB s W b : Nat}
    (hb : b < W) (hsW : s + W ≤ nB) :
    (viewBytes (blobSlice file sb (sb + nB)) s W).getD b 0
      = file.getD (sb + s + b) 0 := by
  rw [viewBytes_blobSlice hsW, List.getD_eq_getElem?_getD, List.getD_eq_getElem?_getD,
    getElem?_take_drop _ _ _ _ hb]

/-! ## The scatter loops produce the expected output -/

theorem applyWrites_expected {T : Type} (L S K W : Nat) (ts : List T)
    (pi pc pj : T → Nat) (src : Nat → Nat → Nat → List Nat)
    (hbound : ∀ t ∈ ts, pi t < L ∧ pc t < K ∧ pj t < S)
    (hcover : ∀ i c j, i < L → c < K → j < S → ∃ t ∈ ts, pi t = i ∧ pc t = c ∧ pj t = j)
    (hlen : ∀ i c j, i < L → c < K → j < S → (src i c j).length = W) :
    applyWrites (List.replicate (L * S * K * W) 0)
        (ts.map fun t => ((pi t * (S * K) + pc t * S + pj t) * W, src (pi t) (pc t) (pj t)))
      = expectedOut L S K W fun i j c b => (src i c j).getD b 0 := by
  have hfit : ∀ w ∈ ts.map (fun t => ((pi t * (S * K) + pc t * S + pj t) * W,
      src (pi t) (pc t) (pj t))),
      w.1 + w.2.length ≤ (List.replicate (L * S * K * W) (0 : Nat)).length := by
    intro w hw
    rw [List.length_replicate]
    obtain ⟨t, ht, rfl⟩ := List.mem_map.mp hw
    obtain ⟨hi, hc, hj⟩ := hbound t ht
    simp only
    rw [hlen _ _ _ hi hc hj]
    have hr : pc t * S + pj t < S * K := by rw [Nat.mul_comm S K]; exact radix_lt hc hj
    have he : pi t * (S * K) + (pc t * S + pj t) < L * (S * K) := radix_lt hi hr
    calc (pi t * (S * K) + pc t * S + pj t) * W + W
        = (pi t * (S * K) + pc t * S + pj t + 1) * W := by ring
      _ ≤ L * (S * K) * W := Nat.mul_le_mul_right W (by omega)
      _ = L * S * K * W := by ring
  apply List.ext_getElem?
  intro p
  by_cases hp : p < L * S * K * W
  · obtain ⟨i, j, c, b, hi, hj, hc, hb, rfl⟩ := decompOut hp
    rw [expectedOut_getElem? L S K W _ hi hj hc hb]
    obtain ⟨t₀, ht₀, hti, htc, htj⟩ := hcover i c j hi hc hj
    have hmem : ((i * (S * K) + c * S + j) * W, src i c j) ∈
        ts.map (fun t => ((pi t * (S * K) + pc t * S + pj t) * W,
          src (pi t) (pc t) (pj t))) :=
      List.mem_map.mpr ⟨t₀, ht₀, by rw [hti, htc, htj]⟩
    have hblen : b < (src i c j).length := by rw [hlen i c j hi hc hj]; exact hb
    have huniq : ∀ w ∈ ts.map (fun t => ((pi t * (S * K) + pc t * S + pj t) * W,
        src (pi t) (pc t) (pj t))),
        w.1 ≤ (i * (S * K) + c * S + j) * W + b →
        (i * (S * K) + c * S + j) * W + b < w.1 + w.2.length →
        w = ((i * (S * K) + c * S + j) * W, src i c j) := by
      intro w hw hw1 hw2
      obtain ⟨t, ht, rfl⟩ := List.mem_map.mp hw
      obtain ⟨hi', hc', hj'⟩ := hbound t ht
      simp only at hw1 hw2 ⊢
      rw [hlen _ _ _ hi' hc' hj'] at hw2
      have he : pi t * (S * K) + pc t * S + pj t = i * (S * K) + c * S + j :=
        offset_inj hb hw1 hw2
      obtain ⟨e1, e2, e3⟩ := tripleIndex_inj hc' hj' hc hj he
      rw [e1, e2, e3]
    rw [applyWrites_getElem?_write hfit hmem (Nat.le_add_right _ _)
      (by rw [hlen i c j hi hc hj]; omega) huniq]
    rw [Nat.add_sub_cancel_left, List.getD_eq_getElem _ _ hblen,
      List.getElem?_eq_getElem hblen]
  · rw [List.getElem?_eq_none, List.getElem?_eq_none]
    · rw [expectedOut_length]; omega
    · rw [applyWrites_length hfit, List.length_replicate]; omega

theorem foldl_fun_congr {α β : Type _} (f g : β → α → β) (l : List α) (init : β)
    (h : ∀ b, ∀ a ∈ l, f b a = g b a) : l.foldl f init = l.foldl g init := by
  induction l generalizing init with
  | nil => rfl
  | cons a t ih =>
    rw [List.foldl_cons, List.foldl_cons, h init a (by simp)]
    exact ih _ (fun b a' ha' => h b a' (List.mem_cons_of_mem _ ha'))

theorem block_le {i ch L B S : Nat} (hi : i < L) (hch : ch < B) :
    i * (S * B) + ch * S + S ≤ L * (S * B) := by
  have h1 : ch * S + S ≤ S * B := by
    calc ch * S + S = (ch + 1) * S := by ring
      _ ≤ B * S := Nat.mul_le_mul_right S (Nat.succ_le_of_lt hch)
      _ = S * B := Nat.mul_comm _ _
  calc i * (S * B) + ch * S + S = i * (S * B) + (ch * S + S) := by ring
    _ ≤ i * (S * B) + S * B := Nat.add_le_add_left h1 _
    _ = (i + 1) * (S * B) := by ring
    _ ≤ L * (S * B) := Nat.mul_le_mul_right _ (Nat.succ_le_of_lt hi)

theorem expectedOut_congr {L S K W : Nat} {g₁ g₂ : Nat → Nat → Nat → Nat → Nat}
    (h : ∀ i j c b, i < L → j < S → c < K → b < W → g₁ i j c b = g₂ i j c b) :
    expectedOut L S K W g₁ = expectedOut L S K W g₂ := by
  unfold expectedOut
  refine List.map_congr_left ?_
  intro p hp
  rw [List.mem_range] at hp
  obtain ⟨hL, hS, hK, hW⟩ := pos_of_lt_prod4 hp
  have hSK : 0 < S * K := Nat.mul_pos hS hK
  have hpe : p / W < L * (S * K) := by
    rw [← Nat.mul_assoc]
    exact (Nat.div_lt_iff_lt_mul hW).mpr hp
  have hr : p / W % (S * K) < S * K := Nat.mod_lt _ hSK
  exact h _ _ _ _ ((Nat.div_lt_iff_lt_mul hSK).mpr hpe) (Nat.mod_lt _ hS)
    ((Nat.div_lt_iff_lt_mul hS).mpr (by rw [Nat.mul_comm K S]; exact hr))
    (Nat.mod_lt _ hW)

theorem getD_mem_of_lt {chans : List Nat} {c : Nat} (hc : c < chans.length) :
    chans.getD c 0 ∈ chans := by
  rw [List.getD_eq_getElem _ _ hc]
  exact List.getElem_mem hc

set_option maxHeartbeats 1000000 in
theorem copyLoop_bil_snd (L S B : Nat) (chans : List Nat) (W : Nat) (file : List Nat)
    (hch : ∀ x ∈ chans, x < B) (hfile : file.length = L * S * B * W) :
    (copyLoop .bil L S B chans W file).2 =
      .ok (expectedOut L S chans.length W (fun i j c b =>
        file.getD (srcElem .bil L S B i j (chans.getD c 0) * W + b) 0)) := by
  rw [copyLoop.eq_def]
  simp only [foldl2_flatten]
  rw [foldl_snd_eq
    (fun (acc : List (Nat × Nat) × List Nat) (p : Nat × Nat) =>
      List.foldl
        (fun st j =>
          (st.1,
            writeBytes st.2 ((p.1 * (S * chans.length) + j * 1 + p.2 * S) * W)
              (viewBytes
                (blobSlice file ((p.1 * (S * B) + chans.getD p.2 0 * S) * W)
                  ((p.1 * (S * B) + chans.getD p.2 0 * S) * W + S * W))
                (j * 1 * W) W)))
        (acc.1 ++ [((p.1 * (S * B) + chans.getD p.2 0 * S) * W,
            (p.1 * (S * B) + chans.getD p.2 0 * S) * W + S * W)], acc.2)
        (List.range S))
    (fun buf p => (List.range S).foldl (fun b j =>
      writeBytes b ((p.1 * (S * chans.length) + j * 1 + p.2 * S) * W)
        (viewBytes (blobSlice file ((p.1 * (S * B) + chans.getD p.2 0 * S) * W)
          ((p.1 * (S * B) + chans.getD p.2 0 * S) * W + S * W)) (j * 1 * W) W)) buf)
    (fun s a => congrArg Prod.snd (foldl_keep_fst (fun b j =>
      writeBytes b ((a.1 * (S * chans.length) + j * 1 + a.2 * S) * W)
        (viewBytes (blobSlice file ((a.1 * (S * B) + chans.getD a.2 0 * S) * W)
          ((a.1 * (S * B) + chans.getD a.2 0 * S) * W + S * W)) (j * 1 * W) W))
      (List.range S)
      (s.1 ++ [((a.1 * (S * B) + chans.getD a.2 0 * S) * W,
        (a.1 * (S * B) + chans.getD a.2 0 * S) * W + S * W)], s.2)))
    ((List.range L).flatMap fun b => List.map (fun c => (b, c)) (List.range chans.length))
    (([] : List (Nat × Nat)), List.replicate (L * S * chans.length * W) (0 : Nat))]
  rw [show ((([] : List (Nat × Nat)),
      List.replicate (L * S * chans.length * W) (0 : Nat)) :
      List (Nat × Nat) × List Nat).2
    = List.replicate (L * S * chans.length * W) (0 : Nat) from rfl]
  simp only [foldl2_flatten]
  refine congrArg Except.ok (Eq.trans (Eq.trans ?e1
    (applyWrites_expected L S chans.length W
      (((List.range L).flatMap fun b =>
          List.map (fun c => (b, c)) (List.range chans.length)).flatMap
        (fun p => (List.range S).map (fun j => (p, j))))
      (fun q => q.1.1) (fun q => q.1.2) (fun q => q.2)
      (fun i c j => viewBytes (blobSlice file ((i * (S * B) + chans.getD c 0 * S) * W)
        ((i * (S * B) + chans.getD c 0 * S) * W + S * W)) (j * 1 * W) W)
      ?hbound ?hcover ?hlen)) ?e2)
  case e1 =>
    rw [applyWrites_eq_foldl, List.foldl_map]
    refine (foldl_fun_congr _ _ _ _ ?_).symm
    intro b q hq
    show writeBytes b ((q.1.1 * (S * chans.length) + q.1.2 * S + q.2) * W)
        (viewBytes (blobSlice file ((q.1.1 * (S * B) + chans.getD q.1.2 0 * S) * W)
          ((q.1.1 * (S * B) + chans.getD q.1.2 0 * S) * W + S * W)) (q.2 * 1 * W) W)
      = writeBytes b ((q.1.1 * (S * chans.length) + q.2 * 1 + q.1.2 * S) * W)
        (viewBytes (blobSlice file ((q.1.1 * (S * B) + chans.getD q.1.2 0 * S) * W)
          ((q.1.1 * (S * B) + chans.getD q.1.2 0 * S) * W + S * W)) (q.2 * 1 * W) W)
    congr 1
    ring
  case hbound =>
    intro t ht
    simp only [List.mem_flatMap, List.mem_map, List.mem_range] at ht
    obtain ⟨p, ⟨i, hi, c, hc, rfl⟩, j, hj, rfl⟩ := ht
    exact ⟨hi, hc, hj⟩
  case hcover =>
    intro i c j hi hc hj
    refine ⟨((i, c), j), ?_, rfl, rfl, rfl⟩
    simp only [List.mem_flatMap, List.mem_map, List.mem_range]
    exact ⟨(i, c), ⟨i, hi, c, hc, rfl⟩, j, hj, rfl⟩
  case hlen =>
    intro i c j hi hc hj
    have hch' : chans.getD c 0 < B := hch _ (getD_mem_of_lt hc)
    refine viewBytes_blobSlice_length ?_ ?_
    · calc j * 1 * W + W = (j + 1) * W := by ring
        _ ≤ S * W := Nat.mul_le_mul_right W (Nat.succ_le_of_lt hj)
    · rw [hfile]
      calc (i * (S * B) + chans.getD c 0 * S) * W + S * W
          = (i * (S * B) + chans.getD c 0 * S + S) * W := by ring
        _ ≤ L * (S * B) * W := Nat.mul_le_mul_right W (block_le hi hch')
        _ = L * S * B * W := by ring
  case e2 =>
    refine expectedOut_congr ?_
    intro i j c b hi hj hc hb
    have hch' : chans.getD c 0 < B := hch _ (getD_mem_of_lt hc)
    rw [viewBytes_blobSlice_getD hb (by
      calc j * 1 * W + W = (j + 1) * W := by ring
        _ ≤ S * W := Nat.mul_le_mul_right W (Nat.succ_le_of_lt hj))]
    simp only [srcElem]
    rw [show (i * (S * B) + chans.getD c 0 * S) * W + j * 1 * W + b
        = (i * (S * B) + chans.getD c 0 * S + j) * W + b from by ring]

set_option maxHeartbeats 1000000 in
theorem copyLoop_bip_snd (L S B : Nat) (chans : List Nat) (W : Nat) (file : List Nat)
    (hch : ∀ x ∈ chans, x < B) (hfile : file.length = L * S * B * W) :
    (copyLoop .bip L S B chans W file).2 =
      .ok (expectedOut L S chans.length W (fun i j c b =>
        file.getD (srcElem .bip L S B i j (chans.getD c 0) * W + b) 0)) := by
  rw [copyLoop.eq_def]
  simp only [foldl2_flatten]
  rw [foldl_snd_eq
    (fun (acc : List (Nat × Nat) × List Nat) (p : Nat × Nat × Nat) =>
      (acc.1 ++ [((p.1 * (S * B) + p.2.2 * B + chans.getD p.2.1 0 * 1) * W,
          (p.1 * (S * B) + p.2.2 * B + chans.getD p.2.1 0 * 1) * W + W)],
        writeBytes acc.2 ((p.1 * (S * chans.length) + p.2.2 * 1 + p.2.1 * S) * W)
          (viewBytes
            (blobSlice file ((p.1 * (S * B) + p.2.2 * B + chans.getD p.2.1 0 * 1) * W)
              ((p.1 * (S * B) + p.2.2 * B + chans.getD p.2.1 0 * 1) * W + W))
            0 W)))
    (fun buf p =>
      writeBytes buf ((p.1 * (S * chans.length) + p.2.2 * 1 + p.2.1 * S) * W)
        (viewBytes
          (blobSlice file ((p.1 * (S * B) + p.2.2 * B + chans.getD p.2.1 0 * 1) * W)
            ((p.1 * (S * B) + p.2.2 * B + chans.getD p.2.1 0 * 1) * W + W))
          0 W))
    (fun s a => rfl)
    ((List.range L).flatMap fun b => List.map (fun c => (b, c))
      ((List.range chans.length).flatMap fun b => List.map (fun c => (b, c)) (List.range S)))
    (([] : List (Nat × Nat)), List.replicate (L * S * chans.length * W) (0 : Nat))]
  rw [show ((([] : List (Nat × Nat)),
      List.replicate (L * S * chans.length * W) (0 : Nat)) :
      List (Nat × Nat) × List Nat).2
    = List.replicate (L * S * chans.length * W) (0 : Nat) from rfl]
  refine congrArg Except.ok (Eq.trans (Eq.trans ?e1
    (applyWrites_expected L S chans.length W
      ((List.range L).flatMap fun b => List.map (fun c => (b, c))
        ((List.range chans.length).flatMap fun b => List.map (fun c => (b, c)) (List.range S)))
      (fun q => q.1) (fun q => q.2.1) (fun q => q.2.2)
      (fun i c j => viewBytes
        (blobSlice file ((i * (S * B) + j * B + chans.getD c 0 * 1) * W)
          ((i * (S * B) + j * B + chans.getD c 0 * 1) * W + W))
        0 W)
      ?hbound ?hcover ?hlen)) ?e2)
  case e1 =>
    rw [applyWrites_eq_foldl, List.foldl_map]
    refine (foldl_fun_congr _ _ _ _ ?_).symm
    intro b q hq
    show writeBytes b ((q.1 * (S * chans.length) + q.2.1 * S + q.2.2) * W)
        (viewBytes
          (blobSlice file ((q.1 * (S * B) + q.2.2 * B + chans.getD q.2.1 0 * 1) * W)
            ((q.1 * (S * B) + q.2.2 * B + chans.getD q.2.1 0 * 1) * W + W))
          0 W)
      = writeBytes b ((q.1 * (S * chans.length) + q.2.2 * 1 + q.2.1 * S) * W)
        (viewBytes
          (blobSlice file ((q.1 * (S * B) + q.2.2 * B + chans.getD q.2.1 0 * 1) * W)
            ((q.1 * (S * B) + q.2.2 * B + chans.getD q.2.1 0 * 1) * W + W))
          0 W)
    congr 1
    ring
  case hbound =>
    intro t ht
    simp only [List.mem_flatMap, List.mem_map, List.mem_range] at ht
    obtain ⟨i, hi, p, ⟨c, hc, j, hj, rfl⟩, rfl⟩ := ht
    exact ⟨hi, hc, hj⟩
  case hcover =>
    intro i c j hi hc hj
    refine ⟨(i, (c, j)), ?_, rfl, rfl, rfl⟩
    simp only [List.mem_flatMap, List.mem_map, List.mem_range]
    exact ⟨i, hi, (c, j), ⟨c, hc, j, hj, rfl⟩, rfl⟩
  case hlen =>
    intro i c j hi hc hj
    have hch' : chans.getD c 0 < B := hch _ (getD_mem_of_lt hc)
    refine viewBytes_blobSlice_length (by omega) ?_
    rw [hfile]
    calc (i * (S * B) + j * B + chans.getD c 0 * 1) * W + W
        = (i * (S * B) + j * B + chans.getD c 0 + 1) * W := by ring
      _ ≤ L * S * B * W :=
        Nat.mul_le_mul_right W (Nat.succ_le_of_lt
          (@srcElem_lt Interleave.bip L S B i j (chans.getD c 0) hi hj hch'))
  case e2 =>
    refine expectedOut_congr ?_
    intro i j c b hi hj hc hb
    rw [viewBytes_blobSlice_getD hb (by omega)]
    simp only [srcElem]
    rw [show (i * (S * B) + j * B + chans.getD c 0 * 1) * W + 0 + b
        = (i * (S * B) + j * B + chans.getD c 0) * W + b from by ring]

set_option maxHeartbeats 1000000 in
theorem copyLoop_bsq_snd (L S B : Nat) (chans : List Nat) (W : Nat) (file : List Nat)
    (hch : ∀ x ∈ chans, x < B) (hfile : file.length = L * S * B * W) :
    (copyLoop .bsq L S B chans W file).2 =
      .ok (expectedOut L S chans.length W (fun i j c b =>
        file.getD (srcElem .bsq L S B i j (chans.getD c 0) * W + b) 0)) := by
  rw [copyLoop.eq_def]
  simp only [foldl2_flatten]
  rw [foldl_snd_eq
    (fun (st : List (Nat × Nat) × List Nat) (c : Nat) =>
      List.foldl
        (fun acc p =>
          (acc.1,
            writeBytes acc.2 ((p.1 * (S * chans.length) + p.2 * 1 + c * S) * W)
              (viewBytes
                (blobSlice file (chans.getD c 0 * (L * S) * W)
                  (chans.getD c 0 * (L * S) * W + L * S * W))
                ((p.1 * S + p.2 * 1) * W) W)))
        (st.1 ++ [(chans.getD c 0 * (L * S) * W, chans.getD c 0 * (L * S) * W + L * S * W)],
          st.2)
        ((List.range L).flatMap fun b => List.map (fun c => (b, c)) (List.range S)))
    (fun buf c =>
      ((List.range L).flatMap fun b => List.map (fun c => (b, c)) (List.range S)).foldl
        (fun b p =>
          writeBytes b ((p.1 * (S * chans.length) + p.2 * 1 + c * S) * W)
            (viewBytes
              (blobSlice file (chans.getD c 0 * (L * S) * W)
                (chans.getD c 0 * (L * S) * W + L * S * W))
              ((p.1 * S + p.2 * 1) * W) W)) buf)
    (fun s a => congrArg Prod.snd (foldl_keep_fst
      (fun b p =>
        writeBytes b ((p.1 * (S * chans.length) + p.2 * 1 + a * S) * W)
          (viewBytes
            (blobSlice file (chans.getD a 0 * (L * S) * W)
              (chans.getD a 0 * (L * S) * W + L * S * W))
            ((p.1 * S + p.2 * 1) * W) W))
      ((List.range L).flatMap fun b => List.map (fun c => (b, c)) (List.range S))
      (s.1 ++ [(chans.getD a 0 * (L * S) * W, chans.getD a 0 * (L * S) * W + L * S * W)],
        s.2)))
    (List.range chans.length)
    (([] : List (Nat × Nat)), List.replicate (L * S * chans.length * W) (0 : Nat))]
  rw [show ((([] : List (Nat × Nat)),
      List.replicate (L * S * chans.length * W) (0 : Nat)) :
      List (Nat × Nat) × List Nat).2
    = List.replicate (L * S * chans.length * W) (0 : Nat) from rfl]
  simp only [foldl2_flatten]
  refine congrArg Except.ok (Eq.trans (Eq.trans ?e1
    (applyWrites_expected L S chans.length W
      ((List.range chans.length).flatMap fun c => List.map (fun p => (c, p))
        ((List.range L).flatMap fun b => List.map (fun c => (b, c)) (List.range S)))
      (fun q => q.2.1) (fun q => q.1) (fun q => q.2.2)
      (fun i c j => viewBytes
        (blobSlice file (chans.getD c 0 * (L * S) * W)
          (chans.getD c 0 * (L * S) * W + L * S * W))
        ((i * S + j * 1) * W) W)
      ?hbound ?hcover ?hlen)) ?e2)
  case e1 =>
    rw [applyWrites_eq_foldl, List.foldl_map]
    refine (foldl_fun_congr _ _ _ _ ?_).symm
    intro b q hq
    show writeBytes b ((q.2.1 * (S * chans.length) + q.1 * S + q.2.2) * W)
        (viewBytes
          (blobSlice file (chans.getD q.1 0 * (L * S) * W)
            (chans.getD q.1 0 * (L * S) * W + L * S * W))
          ((q.2.1 * S + q.2.2 * 1) * W) W)
      = writeBytes b ((q.2.1 * (S * chans.length) + q.2.2 * 1 + q.1 * S) * W)
        (viewBytes
          (blobSlice file (chans.getD q.1 0 * (L * S) * W)
            (chans.getD q.1 0 * (L * S) * W + L * S * W))
          ((q.2.1 * S + q.2.2 * 1) * W) W)
    congr 1
    ring
  case hbound =>
    intro t ht
    simp only [List.mem_flatMap, List.mem_map, List.mem_range] at ht
    obtain ⟨c, hc, p, ⟨i, hi, j, hj, rfl⟩, rfl⟩ := ht
    exact ⟨hi, hc, hj⟩
  case hcover =>
    intro i c j hi hc hj
    refine ⟨(c, (i, j)), ?_, rfl, rfl, rfl⟩
    simp only [List.mem_flatMap, List.mem_map, List.mem_range]
    exact ⟨c, hc, (i, j), ⟨i, hi, j, hj, rfl⟩, rfl⟩
  case hlen =>
    intro i c j hi hc hj
    have hch' : chans.getD c 0 < B := hch _ (getD_mem_of_lt hc)
    refine viewBytes_blobSlice_length ?_ ?_
    · calc (i * S + j * 1) * W + W = (i * S + j + 1) * W := by ring
        _ ≤ L * S * W := Nat.mul_le_mul_right W (Nat.succ_le_of_lt (radix_lt hi hj))
    · rw [hfile]
      calc chans.getD c 0 * (L * S) * W + L * S * W
          = (chans.getD c 0 + 1) * (L * S) * W := by ring
        _ ≤ B * (L * S) * W :=
          Nat.mul_le_mul_right W (Nat.mul_le_mul_right (L * S) (Nat.succ_le_of_lt hch'))
        _ = L * S * B * W := by ring
  case e2 =>
    refine expectedOut_congr ?_
    intro i j c b hi hj hc hb
    rw [viewBytes_blobSlice_getD hb (by
      calc (i * S + j * 1) * W + W = (i * S + j + 1) * W := by ring
        _ ≤ L * S * W := Nat.mul_le_mul_right W (Nat.succ_le_of_lt (radix_lt hi hj)))]
    simp only [srcElem]
    rw [show chans.getD c 0 * (L * S) * W + (i * S + j * 1) * W + b
        = (chans.getD c 0 * (L * S) + i * S + j) * W + b from by ring]

theorem BilDataTypes_byteSize_pos {code : Int} {dt : BilDataType}
    (h : BilDataTypes code = some dt) : 0 < dt.byteSize := by
  unfold BilDataTypes at h
  split at h <;> cases h <;> decide

theorem getBilData_spec (hdr : Store) (file : List Nat) (channels : List Int)
    (L S B : Nat) (il : Interleave) (dt : BilDataType)
    (hL : parseIntOfStore hdr linesKey = some (L : Int))
    (hS : parseIntOfStore hdr samplesKey = some (S : Int))
    (hB : parseIntOfStore hdr bandsKey = some (B : Int))
    (hil : interleaveOf (storeGet hdr interleaveKey) = some il)
    (hdt : (parseIntOfStore hdr dataTypeKey).bind BilDataTypes = some dt)
    (hch : ∀ c ∈ channels, 0 ≤ c ∧ c < (B : Int))
    (hfile : file.length = L * S * B * dt.byteSize) :
    (getBilData hdr file channels).2 =
      .ok (expectedOut L S channels.length dt.byteSize (fun i j c b =>
        file.getD (srcElem il L S B i j ((channels.map Int.toNat).getD c 0)
          * dt.byteSize + b) 0)) := by
  have hW : 0 < dt.byteSize := by
    obtain ⟨code, hc1, hc2⟩ := Option.bind_eq_some.mp hdt
    exact BilDataTypes_byteSize_pos hc2
  have hany : channels.any (fun c => decide (c < 0) || decide ((B : Int) ≤ c)) = false := by
    rw [List.any_eq_false]
    intro c hc
    obtain ⟨h1, h2⟩ := hch c hc
    simp only [Bool.or_eq_true, decide_eq_true_eq, not_or]
    omega
  have hch' : ∀ x ∈ channels.map Int.toNat, x < B := by
    intro x hx
    obtain ⟨c, hc, rfl⟩ := List.mem_map.mp hx
    obtain ⟨h1, h2⟩ := hch c hc
    omega
  have hmod : file.length % dt.byteSize = 0 := by
    rw [hfile]; exact Nat.mul_mod_left _ _
  have hdiv : ((file.length / dt.byteSize : Nat) : Int) = (L : Int) * (S : Int) * (B : Int) := by
    rw [hfile, Nat.mul_div_cancel _ hW]; push_cast; ring
  rw [getBilData.eq_def]
  simp only [hL, hS, hB, hany, hil, hdt, hmod, hdiv, ne_eq, not_true_eq_false,
    Bool.false_eq_true, if_false, not_false_eq_true, if_true, ite_false, ite_true,
    Int.toNat_natCast]
  rw [show channels.length = (channels.map Int.toNat).length from
    (List.length_map channels Int.toNat).symm]
  cases il with
  | bil => exact copyLoop_bil_snd L S B (channels.map Int.toNat) dt.byteSize file hch' hfile
  | bip => exact copyLoop_bip_snd L S B (channels.map Int.toNat) dt.byteSize file hch' hfile
  | bsq => exact copyLoop_bsq_snd L S B (channels.map Int.toNat) dt.byteSize file hch' hfile

theorem mkFile_length (il : Interleave) (L S B W : Nat)
    (elem : Nat → Nat → Nat → Nat → Nat) :
    (mkFile il L S B W elem).length = L * S * B * W := by
  simp [mkFile]

theorem mkHdr_parseInt_lines (sL sS sB sDT il : List Char) :
    parseIntOfStore (mkHdr sL sS sB sDT il) linesKey = parseIntJS sL := rfl

theorem mkHdr_parseInt_samples (sL sS sB sDT il : List Char) :
    parseIntOfStore (mkHdr sL sS sB sDT il) samplesKey = parseIntJS sS := rfl

theorem mkHdr_parseInt_bands (sL sS sB sDT il : List Char) :
    parseIntOfStore (mkHdr sL sS sB sDT il) bandsKey = parseIntJS sB := rfl

theorem mkHdr_parseInt_dataType (sL sS sB sDT il : List Char) :
    parseIntOfStore (mkHdr sL sS sB sDT il) dataTypeKey = parseIntJS sDT := rfl

theorem mkHdr_interleave (sL sS sB sDT il : List Char) :
    storeGet (mkHdr sL sS sB sDT il) interleaveKey = some (.str il) := rfl

theorem copyLoop_nil (il : Interleave) (L S B W : Nat) (file : List Nat) :
    copyLoop il L S B [] W file = ([], .ok []) := by
  cases il <;>
    simp [copyLoop, List.range_zero, foldl_fixed, List.length_nil, Nat.mul_zero,
      Nat.zero_mul, List.replicate]

theorem mkFile_getD (il : Interleave) {L S B W : Nat}
    (elem : Nat → Nat → Nat → Nat → Nat) {i j ch b : Nat}
    (hi : i < L) (hj : j < S) (hch : ch < B) (hb : b < W) :
    (mkFile il L S B W elem).getD (srcElem il L S B i j ch * W + b) 0
      = elem i j ch b := by
  have hsrc : srcElem il L S B i j ch < L * S * B := srcElem_lt hi hj hch
  have hp : srcElem il L S B i j ch * W + b < L * S * B * W := by
    have h1 : srcElem il L S B i j ch * W + b < (srcElem il L S B i j ch + 1) * W := by
      rw [Nat.succ_mul]; omega
    exact lt_of_lt_of_le h1 (Nat.mul_le_mul_right W (Nat.succ_le_of_lt hsrc))
  rw [List.getD_eq_getElem?_getD, mkFile, List.getElem?_map, List.getElem?_range hp,
    Option.map_some']
  cases il with
  | bil =>
    have hr : ch * S + j < S * B := by rw [Nat.mul_comm S B]; exact radix_lt hch hj
    have h1 : (srcElem .bil L S B i j ch * W + b) / W = i * (S * B) + (ch * S + j) := by
      show ((i * (S * B) + ch * S + j) * W + b) / W = _
      rw [Nat.add_assoc]; exact radix_div hb
    have h2 : (srcElem .bil L S B i j ch * W + b) % W = b := by
      show ((i * (S * B) + ch * S + j) * W + b) % W = b
      rw [Nat.add_assoc]; exact radix_mod hb
    simp only [h1, h2, radix_div hr, radix_mod hr, radix_div hj, radix_mod hj, Option.getD_some]
  | bip =>
    have hr : j * B + ch < S * B := radix_lt hj hch
    have h1 : (srcElem .bip L S B i j ch * W + b) / W = i * (S * B) + (j * B + ch) := by
      show ((i * (S * B) + j * B + ch) * W + b) / W = _
      rw [Nat.add_assoc]; exact radix_div hb
    have h2 : (srcElem .bip L S B i j ch * W + b) % W = b := by
      show ((i * (S * B) + j * B + ch) * W + b) % W = b
      rw [Nat.add_assoc]; exact radix_mod hb
    simp only [h1, h2, radix_div hr, radix_mod hr, radix_div hch, radix_mod hch, Option.getD_some]
  | bsq =>
    have hr : i * S + j < L * S := radix_lt hi hj
    have h1 : (srcElem .bsq L S B i j ch * W + b) / W = ch * (L * S) + (i * S + j) := by
      show ((ch * (L * S) + i * S + j) * W + b) / W = _
      rw [Nat.add_assoc]; exact radix_div hb
    have h2 : (srcElem .bsq L S B i j ch * W + b) % W = b := by
      show ((ch * (L * S) + i * S + j) * W + b) % W = b
      rw [Nat.add_assoc]; exact radix_mod hb
    simp only [h1, h2, radix_div hr, radix_mod hr, radix_div hj, radix_mod hj, Option.getD_some]

/-- C3: for every header whose dimensions parse as (L, S, B), every supported
interleave, every supported data type of byte width `dt.byteSize`, and every
in-range channel selection over a data file of matching size, the buffer
returned by `getBilData` has byte length exactly
`L * S * channels.length * dt.byteSize`. -/
theorem C3_round_trip_shape (hdr : Store) (file : List Nat) (channels : List Int)
    (L S B : Nat) (il : Interleave) (dt : BilDataType)
    (hL : parseIntOfStore hdr linesKey = some (L : Int))
    (hS : parseIntOfStore hdr samplesKey = some (S : Int))
    (hB : parseIntOfStore hdr bandsKey = some (B : Int))
    (hil : interleaveOf (storeGet hdr interleaveKey) = some il)
    (hdt : (parseIntOfStore hdr dataTypeKey).bind BilDataTypes = some dt)
    (hch : ∀ c ∈ channels, 0 ≤ c ∧ c < (B : Int))
    (hfile : file.length = L * S * B * dt.byteSize) :
    ∃ out, (getBilData hdr file channels).2 = .ok out ∧
      out.length = L * S * channels.length * dt.byteSize :=
  ⟨_, getBilData_spec hdr file channels L S B il dt hL hS hB hil hdt hch hfile,
    expectedOut_length _ _ _ _ _⟩

theorem C3_round_trip_shape_witness :
    ∃ out, (getBilData
        (mkHdr (chars "2") (chars "3") (chars "2") (chars "1") (chars "bil"))
        [0, 1, 2, 3, 4, 5, 6, 7, 8, 9, 10, 11] [0]).2 = .ok out ∧
      out.length = 2 * 3 * 1 * 1 :=
  C3_round_trip_shape _ _ [0] 2 3 2 .bil ⟨chars "Uint8", 1⟩
    (by decide) (by decide) (by decide) (by decide) (by decide) (by decide) (by decide)

/-- C9: the output contains the selected channels in exactly the requested
order: selection slot `c` of the output holds the data of band
`channels[c]`, so non-contiguous selections keep their order and duplicated
indices appear as repeated output channels. -/
theorem C9_channel_order (hdr : Store) (file : List Nat) (channels : List Int)
    (L S B : Nat) (il : Interleave) (dt : BilDataType)
    (hL : parseIntOfStore hdr linesKey = some (L : Int))
    (hS : parseIntOfStore hdr samplesKey = some (S : Int))
    (hB : parseIntOfStore hdr bandsKey = some (B : Int))
    (hil : interleaveOf (storeGet hdr interleaveKey) = some il)
    (hdt : (parseIntOfStore hdr dataTypeKey).bind BilDataTypes = some dt)
    (hch : ∀ c ∈ channels, 0 ≤ c ∧ c < (B : Int))
    (hfile : file.length = L * S * B * dt.byteSize) :
    ∃ out, (getBilData hdr file channels).2 = .ok out ∧
      ∀ i j c b, i < L → j < S → c < channels.length → b < dt.byteSize →
        out.getD ((i * (S * channels.length) + c * S + j) * dt.byteSize + b) 0
          = file.getD (srcElem il L S B i j (channels.getD c 0).toNat
              * dt.byteSize + b) 0 := by
  refine ⟨_, getBilData_spec hdr file channels L S B il dt hL hS hB hil hdt hch hfile, ?_⟩
  intro i j c b hi hj hc hb
  rw [List.getD_eq_getElem?_getD,
    expectedOut_getElem? L S channels.length dt.byteSize _ hi hj hc hb,
    Option.getD_some,
    show (channels.map Int.toNat).getD c 0 = (channels.getD c 0).toNat from by
      rw [List.getD_eq_getElem _ _ (by rw [List.length_map]; exact hc), List.getElem_map,
        List.getD_eq_getElem _ _ hc]]

theorem C9_channel_order_witness :
    ∃ out, (getBilData
        (mkHdr (chars "1") (chars "2") (chars "2") (chars "1") (chars "bip"))
        [0, 1, 2, 3] [1, 1]).2 = .ok out ∧
      ∀ i j c b, i < 1 → j < 2 → c < ([1, 1] : List Int).length → b < 1 →
        out.getD ((i * (2 * ([1, 1] : List Int).length) + c * 2 + j) * 1 + b) 0
          = [0, 1, 2, 3].getD (srcElem .bip 1 2 2 i j (([1, 1] : List Int).getD c 0).toNat
              * 1 + b) 0 :=
  C9_channel_order _ _ [1, 1] 1 2 2 .bip ⟨chars "Uint8", 1⟩
    (by decide) (by decide) (by decide) (by decide) (by decide) (by decide) (by decide)

/-- C4: a channel list containing an index below 0 or at least `bands` makes
`getBilData` fail with the channel-out-of-bounds error, with no byte range
read from the data file (empty read trace). -/
theorem C4_channel_out_of_range (hdr : Store) (file : List Nat) (channels : List Int)
    (L S B : Nat)
    (hL : parseIntOfStore hdr linesKey = some (L : Int))
    (hS : parseIntOfStore hdr samplesKey = some (S : Int))
    (hB : parseIntOfStore hdr bandsKey = some (B : Int))
    (c : Int) (hc : c ∈ channels) (hbad : c < 0 ∨ (B : Int) ≤ c) :
    getBilData hdr file channels = ([], .error .channelOutOfBounds) := by
  have hany : (channels.any fun x => decide (x < 0) || decide ((B : Int) ≤ x)) = true := by
    rw [List.any_eq_true]
    refine ⟨c, hc, ?_⟩
    simp only [Bool.or_eq_true, decide_eq_true_eq]
    omega
  rw [getBilData.eq_def]
  simp only [hL, hS, hB, hany, if_true]

theorem C4_channel_out_of_range_witness :
    getBilData (mkHdr (chars "2") (chars "3") (chars "2") (chars "1") (chars "bil"))
      [0, 1, 2, 3, 4, 5, 6, 7, 8, 9, 10, 11] [-1]
      = ([], .error .channelOutOfBounds) :=
  C4_channel_out_of_range _ _ [-1] 2 3 2
    (by decide) (by decide) (by decide) (-1) (by decide) (by decide)

/-- C5: with valid dimensions, interleave, data type and in-range channels,
a data file whose size is not a multiple of the byte width, or whose element
count differs from lines*samples*bands, makes `getBilData` fail with one of
the two size errors, with no byte range read from the data file. -/
theorem C5_size_mismatch (hdr : Store) (file : List Nat) (channels : List Int)
    (L S B : Nat) (il : Interleave) (dt : BilDataType)
    (hL : parseIntOfStore hdr linesKey = some (L : Int))
    (hS : parseIntOfStore hdr samplesKey = some (S : Int))
    (hB : parseIntOfStore hdr bandsKey = some (B : Int))
    (hil : interleaveOf (storeGet hdr interleaveKey) = some il)
    (hdt : (parseIntOfStore hdr dataTypeKey).bind BilDataTypes = some dt)
    (hch : ∀ c ∈ channels, 0 ≤ c ∧ c < (B : Int))
    (hsize : file.length % dt.byteSize ≠ 0 ∨ file.length / dt.byteSize ≠ L * S * B) :
    getBilData hdr file channels = ([], .error .sizeNotAligned)
    ∨ getBilData hdr file channels = ([], .error .sizeMismatch) := by
  have hany : (channels.any fun x => decide (x < 0) || decide ((B : Int) ≤ x)) = false := by
    rw [List.any_eq_false]
    intro x hx
    obtain ⟨h1, h2⟩ := hch x hx
    simp only [Bool.or_eq_true, decide_eq_true_eq, not_or]
    omega
  rw [getBilData.eq_def]
  simp only [hL, hS, hB, hany, Bool.false_eq_true, if_false, hil, hdt]
  by_cases hmod : file.length % dt.byteSize = 0
  · right
    have hne : ((file.length / dt.byteSize : Nat) : Int)
        ≠ (L : Int) * (S : Int) * (B : Int) := by
      rcases hsize with h | h
      · exact absurd hmod h
      · intro he
        apply h
        have h2 : ((file.length / dt.byteSize : Nat) : Int) = ((L * S * B : Nat) : Int) := by
          rw [he]; push_cast; ring
        exact_mod_cast h2
    simp only [hmod, ne_eq, not_true_eq_false, if_false]
    rw [if_pos hne]
  · left
    rw [if_pos hmod]

theorem C5_size_mismatch_witness :
    getBilData (mkHdr (chars "2") (chars "3") (chars "2") (chars "1") (chars "bil"))
      [0, 1, 2, 3, 4, 5, 6, 7, 8, 9, 10] [0]
      = ([], .error .sizeNotAligned)
    ∨ getBilData (mkHdr (chars "2") (chars "3") (chars "2") (chars "1") (chars "bil"))
      [0, 1, 2, 3, 4, 5, 6, 7, 8, 9, 10] [0]
      = ([], .error .sizeMismatch) :=
  C5_size_mismatch _ _ [0] 2 3 2 .bil ⟨chars "Uint8", 1⟩
    (by decide) (by decide) (by decide) (by decide) (by decide) (by decide) (by decide)

/-- C10: with a valid header and matching file, an empty channel selection
succeeds, returns a zero-length buffer and reads no byte range from the data
file. -/
theorem C10_empty_selection (hdr : Store) (file : List Nat)
    (L S B : Nat) (il : Interleave) (dt : BilDataType)
    (hL : parseIntOfStore hdr linesKey = some (L : Int))
    (hS : parseIntOfStore hdr samplesKey = some (S : Int))
    (hB : parseIntOfStore hdr bandsKey = some (B : Int))
    (hil : interleaveOf (storeGet hdr interleaveKey) = some il)
    (hdt : (parseIntOfStore hdr dataTypeKey).bind BilDataTypes = some dt)
    (hfile : file.length = L * S * B * dt.byteSize) :
    getBilData hdr file [] = ([], .ok []) := by
  have hW : 0 < dt.byteSize := by
    obtain ⟨code, hc1, hc2⟩ := Option.bind_eq_some.mp hdt
    exact BilDataTypes_byteSize_pos hc2
  have hmod : file.length % dt.byteSize = 0 := by
    rw [hfile]; exact Nat.mul_mod_left _ _
  have hdiv : ((file.length / dt.byteSize : Nat) : Int)
      = (L : Int) * (S : Int) * (B : Int) := by
    rw [hfile, Nat.mul_div_cancel _ hW]; push_cast; ring
  rw [getBilData.eq_def]
  simp only [hL, hS, hB, hil, hdt, hmod, hdiv, List.any_nil, Bool.false_eq_true, if_false,
    ne_eq, not_true_eq_false, not_false_eq_true, if_true, ite_false, ite_true,
    Int.toNat_natCast, List.map_nil]
  exact copyLoop_nil il L S B dt.byteSize file

theorem C10_empty_selection_witness :
    getBilData (mkHdr (chars "2") (chars "3") (chars "2") (chars "1") (chars "bsq"))
      [0, 1, 2, 3, 4, 5, 6, 7, 8, 9, 10, 11] [] = ([], .ok []) :=
  C10_empty_selection _ _ 2 3 2 .bsq ⟨chars "Uint8", 1⟩
    (by decide) (by decide) (by decide) (by decide) (by decide) (by decide)

/-- C1: three data files holding the same logical (line, sample, band)
element values but physically laid out as BIL, BIP and BSQ, each decoded
through a matching header, produce byte-identical output buffers from
`getBilData` for every channel selection. -/
theorem C1_interleave_equivalence
    (sL sS sB sDT : List Char) (L S B : Nat) (code : Int) (dt : BilDataType)
    (hL : parseIntJS sL = some (L : Int))
    (hS : parseIntJS sS = some (S : Int))
    (hB : parseIntJS sB = some (B : Int))
    (hcode : parseIntJS sDT = some code) (hdt : BilDataTypes code = some dt)
    (elem : Nat → Nat → Nat → Nat → Nat) (channels : List Int)
    (hch : ∀ c ∈ channels, 0 ≤ c ∧ c < (B : Int)) :
    ((getBilData (mkHdr sL sS sB sDT (chars "bil"))
        (mkFile .bil L S B dt.byteSize elem) channels).2
      = (getBilData (mkHdr sL sS sB sDT (chars "bip"))
          (mkFile .bip L S B dt.byteSize elem) channels).2)
    ∧ ((getBilData (mkHdr sL sS sB sDT (chars "bip"))
          (mkFile .bip L S B dt.byteSize elem) channels).2
      = (getBilData (mkHdr sL sS sB sDT (chars "bsq"))
          (mkFile .bsq L S B dt.byteSize elem) channels).2) := by
  have hch' : ∀ c, c < channels.length → (channels.map Int.toNat).getD c 0 < B := by
    intro c hc
    have hmem : (channels.map Int.toNat).getD c 0 ∈ channels.map Int.toNat :=
      getD_mem_of_lt (by rw [List.length_map]; exact hc)
    obtain ⟨y, hy, heq⟩ := List.mem_map.mp hmem
    obtain ⟨h1, h2⟩ := hch y hy
    omega
  have specBil := getBilData_spec (mkHdr sL sS sB sDT (chars "bil"))
      (mkFile .bil L S B dt.byteSize elem) channels L S B .bil dt
      (by rw [mkHdr_parseInt_lines]; exact hL)
      (by rw [mkHdr_parseInt_samples]; exact hS)
      (by rw [mkHdr_parseInt_bands]; exact hB)
      (by rw [mkHdr_interleave]; rfl)
      (by rw [mkHdr_parseInt_dataType, hcode]; exact hdt)
      hch (mkFile_length _ _ _ _ _ _)
  have specBip := getBilData_spec (mkHdr sL sS sB sDT (chars "bip"))
      (mkFile .bip L S B dt.byteSize elem) channels L S B .bip dt
      (by rw [mkHdr_parseInt_lines]; exact hL)
      (by rw [mkHdr_parseInt_samples]; exact hS)
      (by rw [mkHdr_parseInt_bands]; exact hB)
      (by rw [mkHdr_interleave]; rfl)
      (by rw [mkHdr_parseInt_dataType, hcode]; exact hdt)
      hch (mkFile_length _ _ _ _ _ _)
  have specBsq := getBilData_spec (mkHdr sL sS sB sDT (chars "bsq"))
      (mkFile .bsq L S B dt.byteSize elem) channels L S B .bsq dt
      (by rw [mkHdr_parseInt_lines]; exact hL)
      (by rw [mkHdr_parseInt_samples]; exact hS)
      (by rw [mkHdr_parseInt_bands]; exact hB)
      (by rw [mkHdr_interleave]; rfl)
      (by rw [mkHdr_parseInt_dataType, hcode]; exact hdt)
      hch (mkFile_length _ _ _ _ _ _)
  refine ⟨?_, ?_⟩
  · rw [specBil, specBip]
    exact congrArg Except.ok (expectedOut_congr (fun i j c b hi hj hc hb => by
      rw [mkFile_getD .bil elem hi hj (hch' c hc) hb,
        mkFile_getD .bip elem hi hj (hch' c hc) hb]))
  · rw [specBip, specBsq]
    exact congrArg Except.ok (expectedOut_congr (fun i j c b hi hj hc hb => by
      rw [mkFile_getD .bip elem hi hj (hch' c hc) hb,
        mkFile_getD .bsq elem hi hj (hch' c hc) hb]))

theorem C1_interleave_equivalence_witness :
    ((getBilData (mkHdr (chars "1") (chars "2") (chars "2") (chars "1") (chars "bil"))
        (mkFile .bil 1 2 2 1 (fun i j ch b => i + 2 * j + 5 * ch + b)) [1, 0]).2
      = (getBilData (mkHdr (chars "1") (chars "2") (chars "2") (chars "1") (chars "bip"))
          (mkFile .bip 1 2 2 1 (fun i j ch b => i + 2 * j + 5 * ch + b)) [1, 0]).2)
    ∧ ((getBilData (mkHdr (chars "1") (chars "2") (chars "2") (chars "1") (chars "bip"))
          (mkFile .bip 1 2 2 1 (fun i j ch b => i + 2 * j + 5 * ch + b)) [1, 0]).2
      = (getBilData (mkHdr (chars "1") (chars "2") (chars "2") (chars "1") (chars "bsq"))
          (mkFile .bsq 1 2 2 1 (fun i j ch b => i + 2 * j + 5 * ch + b)) [1, 0]).2) :=
  C1_interleave_equivalence (chars "1") (chars "2") (chars "2") (chars "1")
    1 2 2 1 ⟨chars "Uint8", 1⟩ (by decide) (by decide) (by decide) (by decide) (by decide)
    (fun i j ch b => i + 2 * j + 5 * ch + b) [1, 0] (by decide)

/-- C2 as stated is false on the code: decoding a band-interleaved-by-pixel
source `[0, 1, 2, 3]` (1 line, 2 samples, 2 bands, 1 byte) with the full
natural selection `[0, 1]` yields `[0, 2, 1, 3]`, which differs from the raw
source — the output buffer is interleaved by line, not by pixel. -/
theorem C2_counterexample :
    (getBilData (mkHdr (chars "1") (chars "2") (chars "2") (chars "1") (chars "bip"))
        [0, 1, 2, 3] [0, 1]).2 = .ok [0, 2, 1, 3]
    ∧ ([0, 2, 1, 3] : List Nat) ≠ [0, 1, 2, 3] :=
  ⟨by decide, by decide⟩

/-- C2 (amended): the output buffer is laid out band-interleaved-by-LINE over
the selected channels (element strides [samples*selectedCount, 1, samples]),
so selecting all bands in natural order `[0..B-1]` reproduces the raw source
exactly when the source is itself band-interleaved-by-line. -/
theorem C2_identity_selection (hdr : Store) (file : List Nat)
    (L S B : Nat) (dt : BilDataType)
    (hL : parseIntOfStore hdr linesKey = some (L : Int))
    (hS : parseIntOfStore hdr samplesKey = some (S : Int))
    (hB : parseIntOfStore hdr bandsKey = some (B : Int))
    (hil : interleaveOf (storeGet hdr interleaveKey) = some .bil)
    (hdt : (parseIntOfStore hdr dataTypeKey).bind BilDataTypes = some dt)
    (hfile : file.length = L * S * B * dt.byteSize) :
    (getBilData hdr file ((List.range B).map Int.ofNat)).2 = .ok file := by
  have hch : ∀ c ∈ (List.range B).map Int.ofNat, 0 ≤ c ∧ c < (B : Int) := by
    intro c hc
    obtain ⟨y, hy, rfl⟩ := List.mem_map.mp hc
    rw [List.mem_range] at hy
    rw [Int.ofNat_eq_natCast]
    refine ⟨Int.natCast_nonneg y, ?_⟩
    exact_mod_cast hy
  rw [getBilData_spec hdr file _ L S B .bil dt hL hS hB hil hdt hch hfile]
  have hK : ((List.range B).map Int.ofNat).length = B := by simp
  have hchN : ∀ c, c < B →
      ((((List.range B).map Int.ofNat).map Int.toNat).getD c 0) = c := by
    intro c hc
    rw [List.map_map]
    have hid : (List.range B).map (Int.toNat ∘ Int.ofNat) = (List.range B).map id := by
      refine List.map_congr_left ?_
      intro a ha
      simp
    rw [hid, List.map_id, List.getD_eq_getElem _ _ (by simpa using hc), List.getElem_range]
  rw [hK]
  refine congrArg Except.ok ?_
  apply List.ext_getElem?
  intro p
  by_cases hp : p < L * S * B * dt.byteSize
  · obtain ⟨i, j, c, b, hi, hj, hc, hb, rfl⟩ := decompOut hp
    rw [expectedOut_getElem? L S B dt.byteSize _ hi hj hc hb, hchN c hc]
    simp only [srcElem]
    have hlt : (i * (S * B) + c * S + j) * dt.byteSize + b < file.length := by
      rw [hfile]
      rw [Nat.add_assoc, Nat.mul_assoc L S B] at hp ⊢
      exact hp
    rw [List.getD_eq_getElem?_getD, List.getElem?_eq_getElem hlt, Option.getD_some]
  · rw [List.getElem?_eq_none (by rw [expectedOut_length]; omega),
      List.getElem?_eq_none (by rw [hfile]; omega)]

theorem C2_identity_selection_witness :
    (getBilData (mkHdr (chars "1") (chars "2") (chars "2") (chars "1") (chars "bil"))
      [9, 8, 7, 6] ((List.range 2).map Int.ofNat)).2 = .ok [9, 8, 7, 6] :=
  C2_identity_selection _ _ 1 2 2 ⟨chars "Uint8", 1⟩
    (by decide) (by decide) (by decide) (by decide) (by decide) (by decide)

/-- C6: a bracketed header value consumes and concatenates subsequent trimmed
lines until one ends in a closing brace, then splits the bracketed content on
commas and trims each element: the header
`ENVI\nband names = {red,\ngreen,\nblue}` parses the key `band_names` to the
three-element list `["red", "green", "blue"]`. -/
theorem C6_multiline_list :
    loadHeaderData (chars "ENVI\nband names = \x7bred,\ngreen,\nblue\x7d")
      = .ok [(chars "band_names", .list [chars "red", chars "green", chars "blue"])] := by
  decide

/-- C7: when the parsed header store has a `bands` value parsing as integer N
and a `band_names` or `wavelength` entry whose length differs from N, header
loading fails with one of the two band-count consistency errors. -/
theorem C7_band_count_mismatch (text line0 : List Char)
    (rest : List (List Char)) (st : Store) (bv : HdrValue) (N : Int)
    (hsplit : splitOnChar '\n' text = line0 :: rest)
    (hmagic : line0 = chars "ENVI")
    (hparse : parseHeaderLines rest .normal [] = .ok st)
    (hbands : storeGet st bandsKey = some bv)
    (hN : parseIntValue bv = some N)
    (hmm : (∃ v, storeGet st bandNamesKey = some v ∧ ((valueLength v : Int)) ≠ N)
        ∨ (∃ v, storeGet st wavelengthKey = some v ∧ ((valueLength v : Int)) ≠ N)) :
    loadHeaderData text = .error .bandNamesMismatch
    ∨ loadHeaderData text = .error .wavelengthMismatch := by
  have hload : loadHeaderData text = bandsCheck st := by
    rw [loadHeaderData, hsplit, hmagic]
    show (match parseHeaderLines rest PMode.normal [] with
      | Except.error e => Except.error e
      | Except.ok data => bandsCheck data) = bandsCheck st
    rw [hparse]
  rw [hload, bandsCheck, hbands]
  by_cases hbn : lengthMismatch (storeGet st bandNamesKey) (parseIntValue bv) = true
  · left
    simp only [hbn, if_true]
  · right
    have hwl : lengthMismatch (storeGet st wavelengthKey) (parseIntValue bv) = true := by
      rcases hmm with ⟨v, hv, hne⟩ | ⟨v, hv, hne⟩
      · exfalso
        apply hbn
        rw [hv, lengthMismatch, hN]
        simp only [decide_eq_true_eq, ne_eq, Option.some.injEq]
        exact hne
      · rw [hv, lengthMismatch, hN]
        simp only [decide_eq_true_eq, ne_eq, Option.some.injEq]
        exact hne
    simp only [hbn, hwl, if_true, if_false, Bool.false_eq_true]

theorem C7_band_count_mismatch_witness :
    loadHeaderData (chars "ENVI\nbands = 2\nband names = \x7bred,\ngreen,\nblue\x7d")
      = .error .bandNamesMismatch
    ∨ loadHeaderData (chars "ENVI\nbands = 2\nband names = \x7bred,\ngreen,\nblue\x7d")
      = .error .wavelengthMismatch :=
  C7_band_count_mismatch _ (chars "ENVI")
    [chars "bands = 2", chars "band names = \x7bred,", chars "green,", chars "blue\x7d"]
    [(chars "bands", .str (chars "2")),
     (chars "band_names", .list [chars "red", chars "green", chars "blue"])]
    (.str (chars "2")) 2
    (by decide) rfl (by decide) (by decide) (by decide)
    (Or.inl ⟨.list [chars "red", chars "green", chars "blue"], by decide, by decide⟩)

/-- C8: a stored header key is the text left of the first `=`, trimmed,
lower-cased, with only the FIRST space replaced by an underscore: `band
names` (and `Band Names`) become `band_names`, while `sensor type name`
becomes `sensor_type name`, not `sensor_type_name` — shown both on the
normalisation step itself and through a full header parse. -/
theorem C8_key_normalization :
    normalizeKey (chars "band names") = chars "band_names"
    ∧ normalizeKey (chars "Band Names") = chars "band_names"
    ∧ normalizeKey (chars "sensor type name") = chars "sensor_type name"
    ∧ loadHeaderData (chars "ENVI\nsensor type name = x")
        = .ok [(chars "sensor_type name", .str (chars "x"))] :=
  ⟨by decide, by decide, by decide, by decide⟩
